import Mathlib

/-!
Verification of the parens interpreter core (Reader/Analyzer/Evaluator).

The Go sources are shallowly embedded: each Go function that the claims
touch becomes a Lean definition with the same branching structure.  The
interpreter's mutually recursive evaluation pipeline (Env.Eval ->
Analyzer.Analyze -> Expr.Eval) is embedded as a fuel-indexed family of
functions `interp : Nat -> Interp`, structurally recursive on the fuel, so
every concrete execution reduces by `rfl`/`decide`.  Running out of fuel
yields the artificial error `Err.fuelExhausted`, which the Go program never
produces; theorems about concrete programs always use enough fuel.

Pieces of the repository that are not in the translated sources (the Env
record with push/pop/resolve/setGlobal/fork, and the value package's
IsTruthy) are modelled from the specification; each such definition says so
in its doc comment.
-/

namespace ParensProof

mutual
/-- Value model of the `value` package: the tagged union of data variants
the core manipulates.  `Fn` stands for a host value implementing the
`Invokable` interface; its behaviour is given by the closed code type
`FnCode` interpreted by the evaluator (`constFn` is a host function that
returns a fixed value, `selfRec` is a host function that re-evaluates a
self-recursive invocation with no base case).  Float64 is omitted: no claim
constructs a floating-point value (number-literal claims are settled on the
token strings, before numeric conversion). -/
inductive Val where
  | Nil
  | Bool (b : Bool)
  | Int64 (n : Int)
  | Char (c : Char)
  | Str (s : String)
  | Keyword (s : String)
  | Symbol (s : String)
  | List (items : List Val)
  | Fn (code : FnCode)

inductive FnCode where
  | constFn (v : Val)
  | selfRec
end

/-- Error causes of the core (parens.Error / reader.Error cause tags, plus
the Go sentinels io.EOF and ErrSkip, plus the fuel artifact). -/
inductive Err where
  | invalidBindName (name : String)
  | notInvokable (typeName : String)
  | stackOverflow
  | notFound (name : String)
  | invalidForm (msg : String)
  | goMissingArg
  | numberFormat (form : String)
  | eofIn (form : String)
  | noopQuote (form : String)
  | unmatchedDelimiter (r : Char)
  | ioEOF
  | skipSignal
  | fuelExhausted
  deriving DecidableEq

/-- One call frame (Go stackFrame): invocation name, evaluated arguments and
a fresh local scope (the ConcurrentMap produced by env.mapFactory). -/
structure Frame where
  name : String
  args : List Val
  locals : List (String × Val)

/-- The evaluation environment.  Modelled from the spec: the Env struct is
not among the translated sources; per the spec it holds the global binding
store, the bounded call-frame stack and the configured maximum depth.  The
analyzer/expander references are fixed to the builtin configuration
(special forms go/def/quote, identity expander). -/
structure Env where
  globals : List (String × Val)
  stack : List Frame
  maxDepth : Nat

/-- Lookup in a binding store (ConcurrentMap.Load). -/
def lookupStore (store : List (String × Val)) (key : String) : Option Val :=
  match store with
  | [] => none
  | (k, v) :: rest => if k = key then some v else lookupStore rest key

/-- Modelled from the spec: Env.setGlobal performs an unconditional store
into the global binding store. -/
def Env.setGlobal (env : Env) (name : String) (v : Val) : Env :=
  { env with globals := (name, v) :: env.globals }

/-- Modelled from the spec: Env.resolve searches the current frame's local
scope first, then the global store; absence is a not-found signal. -/
def Env.resolve (env : Env) (name : String) : Option Val :=
  match env.stack with
  | frame :: _ =>
    match lookupStore frame.locals name with
    | some v => some v
    | none => lookupStore env.globals name
  | [] => lookupStore env.globals name

/-- Modelled from the spec: Env.push enforces the configured depth bound --
pushing fails with a stack-depth-exceeded error if the new frame would make
the stack deeper than maxDepth. -/
def Env.push (env : Env) (frame : Frame) : Except Err Env :=
  if env.maxDepth < env.stack.length + 1 then .error .stackOverflow
  else .ok { env with stack := frame :: env.stack }

/-- Modelled from the spec: Env.pop removes the most recent frame
(unconditionally, on success or failure of the invocation). -/
def Env.pop (env : Env) : Env :=
  { env with stack := env.stack.tail }

/-- Modelled from the spec: Env.fork returns a derived environment sharing
the global bindings, with an empty, independent call stack. -/
def Env.fork (env : Env) : Env :=
  { env with stack := [] }

/-- Go's strings.TrimSpace: drop leading and trailing whitespace.  (Go
trims the full Unicode space set; the claims only exercise ASCII
whitespace, which Char.isWhitespace covers.) -/
def trimSpace (s : String) : String :=
  ⟨((s.data.dropWhile Char.isWhitespace).reverse.dropWhile Char.isWhitespace).reverse⟩

/-- Modelled from the spec: value.IsTruthy -- only Nil and boolean false
are falsy; every other value (including numeric zero) is truthy. -/
def isTruthy : Val → Bool
  | .Nil => false
  | .Bool b => b
  | _ => true

/-- The runtime kind of a value, standing in for reflect.TypeOf in the
not-invokable diagnostic. -/
def Val.typeName : Val → String
  | .Nil => "value.Nil"
  | .Bool _ => "value.Bool"
  | .Int64 _ => "value.Int64"
  | .Char _ => "value.Char"
  | .Str _ => "value.String"
  | .Keyword _ => "value.Keyword"
  | .Symbol _ => "value.Symbol"
  | .List _ => "value.List"
  | .Fn _ => "parens.Invokable"

/-- The expression tree (Expr variants of expr.go).  If/Do hold raw forms
(re-evaluated through the full pipeline), Invoke holds analyzed
sub-expressions, Go holds the raw unevaluated form. -/
inductive Expr where
  | Const (v : Val)
  | Quote (form : Val)
  | Def (name : String) (v : Val)
  | If (test thenForm elseForm : Val)
  | Do (forms : List Val)
  | Invoke (name : String) (target : Expr) (args : List Expr)
  | Go (form : Val)

/-- Diagnostic name an InvokeExpr receives; the Go source renders the
analyzed target with fmt.Sprintf, which only feeds the stack-frame name. -/
def exprName (_ : Expr) : String := "InvokeExpr"

/-- The Invoke node a `selfRec` host function evaluates: an invocation of
itself with no arguments and no base case. -/
def selfRecExpr : Expr := .Invoke "recur" (.Const (.Fn .selfRec)) []

/-- parseGoExpr (special.go): takes the first element of the argument
sequence raw; a nil first element (empty argument sequence) is an error;
anything after the first argument is never examined. -/
def parseGoExpr (args : List Val) : Except Err Expr :=
  match args.head? with
  | none => .error .goMissingArg
  | some v => .ok (.Go v)

/-- parseQuoteExpr (special.go): requires exactly one argument and wraps
the raw form unevaluated in a Quote node. -/
def parseQuoteExpr (args : List Val) : Except Err Expr :=
  if args.length ≠ 1 then
    .error (.invalidForm ("requires exactly 1 argument, got " ++ toString args.length))
  else
    match args.head? with
    | some v => .ok (.Quote v)
    | none => .error (.invalidForm "unreachable: count = 1 with no first element")

/-- Bundle of the mutually recursive interpreter operations at one fuel
level.  Fields mirror, in order: Env.Eval (the Expand->Analyze->Eval
pipeline), BasicAnalyzer.Analyze, BasicAnalyzer.analyzeSeq (its special-form
dispatch and its general-invocation tail), the argument loop of analyzeSeq,
parseDefExpr (which evaluates eagerly), Expr.Eval dispatch, the argument
loop of InvokeExpr.Eval, the form loop of DoExpr.Eval, and
Invokable.Invoke for the host functions of `FnCode`. -/
structure Interp where
  envEval : Env → Val → Except Err Val × Env
  analyze : Env → Val → Except Err Expr × Env
  analyzeSeq : Env → List Val → Except Err Expr × Env
  analyzeInvoke : Env → List Val → Except Err Expr × Env
  analyzeList : Env → List Val → Except Err (List Expr) × Env
  parseDef : Env → List Val → Except Err Expr × Env
  evalExpr : Env → Expr → Except Err Val × Env
  evalArgs : Env → List Expr → Except Err (List Val) × Env
  evalDo : Env → List Val → Option Val → Except Err Val × Env
  invoke : Env → FnCode → List Val → Except Err Val × Env

/-- The out-of-fuel interpreter: every operation reports fuel exhaustion. -/
def failInterp : Interp where
  envEval := fun env _ => (.error .fuelExhausted, env)
  analyze := fun env _ => (.error .fuelExhausted, env)
  analyzeSeq := fun env _ => (.error .fuelExhausted, env)
  analyzeInvoke := fun env _ => (.error .fuelExhausted, env)
  analyzeList := fun env _ => (.error .fuelExhausted, env)
  parseDef := fun env _ => (.error .fuelExhausted, env)
  evalExpr := fun env _ => (.error .fuelExhausted, env)
  evalArgs := fun env _ => (.error .fuelExhausted, env)
  evalDo := fun env _ _ => (.error .fuelExhausted, env)
  invoke := fun env _ _ => (.error .fuelExhausted, env)

/-- The interpreter at a given fuel level; each operation passes the
decremented fuel to every call it makes.  State (the Go code mutates the
Env in place) is threaded explicitly: every operation returns the
environment alongside its result, also on the error path, since Go
mutations performed before an error persist. -/
def interp : Nat → Interp
  | 0 => failInterp
  | fuel + 1 =>
    let I := interp fuel
    { -- Env.Eval: pass the form through the Expander (the builtin expander,
      -- modelled from the spec, performs no rewriting), then the Analyzer,
      -- then evaluate the resulting expression.
      envEval := fun env form =>
        match I.analyze env form with
        | (.error e, env') => (.error e, env')
        | (.ok expr, env') => I.evalExpr env' expr
      -- BasicAnalyzer.Analyze: symbols resolve immediately (baking the
      -- current value into a Const node), non-empty sequences go to
      -- analyzeSeq, everything else is self-evaluating.
      analyze := fun env form =>
        match form with
        | .Symbol s =>
          match env.resolve s with
          | none => (.error (.notFound s), env)
          | some v => (.ok (.Const v), env)
        | .List [] => (.ok (.Const (.List [])), env)
        | .List (x :: xs) => I.analyzeSeq env (x :: xs)
        | other => (.ok (.Const other), env)
      -- BasicAnalyzer.analyzeSeq: a first element naming a registered
      -- special form (the builtin table go/def/quote) delegates to that
      -- form's parser with the remaining elements; everything else takes
      -- the general invocation path.
      analyzeSeq := fun env forms =>
        match forms with
        | [] => (.error (.invalidForm "analyzeSeq on empty sequence"), env)
        | first :: rest =>
          match first with
          | .Symbol s =>
            if s = "go" then
              match parseGoExpr rest with
              | .error e => (.error e, env)
              | .ok expr => (.ok expr, env)
            else if s = "def" then I.parseDef env rest
            else if s = "quote" then
              match parseQuoteExpr rest with
              | .error e => (.error e, env)
              | .ok expr => (.ok expr, env)
            else I.analyzeInvoke env (first :: rest)
          | _ => I.analyzeInvoke env (first :: rest)
      -- General invocation path of analyzeSeq: analyze the first element as
      -- the call target, then analyze every element of the whole sequence
      -- (the first included) as the arguments -- the carry-over double
      -- analysis of the target.
      analyzeInvoke := fun env forms =>
        match forms with
        | [] => (.error (.invalidForm "invocation of empty sequence"), env)
        | first :: rest =>
          match I.analyze env first with
          | (.error e, env1) => (.error e, env1)
          | (.ok target, env1) =>
            match I.analyzeList env1 (first :: rest) with
            | (.error e, env2) => (.error e, env2)
            | (.ok args, env2) => (.ok (.Invoke (exprName target) target args), env2)
      -- The value.ForEach argument loop: analyze forms left to right,
      -- stopping at the first failure.
      analyzeList := fun env forms =>
        match forms with
        | [] => (.ok [], env)
        | f :: fs =>
          match I.analyze env f with
          | (.error e, env1) => (.error e, env1)
          | (.ok e1, env1) =>
            match I.analyzeList env1 fs with
            | (.error e, env2) => (.error e, env2)
            | (.ok es, env2) => (.ok (e1 :: es), env2)
      -- parseDefExpr: exactly two arguments, the first a symbol; the second
      -- is evaluated immediately through the full pipeline and the result
      -- captured in the Def node.
      parseDef := fun env args =>
        if args.length ≠ 2 then
          (.error (.invalidForm ("requires exactly 2 arguments, got " ++ toString args.length)), env)
        else
          match args with
          | .Symbol s :: second :: _ =>
            match I.envEval env second with
            | (.error e, env1) => (.error e, env1)
            | (.ok v, env1) => (.ok (.Def s v), env1)
          | other :: _ =>
            (.error (.invalidForm ("first arg must be symbol, not " ++ other.typeName)), env)
          | [] => (.error (.invalidForm "unreachable: count = 2 with no elements"), env)
      -- Expr.Eval dispatch (expr.go).
      evalExpr := fun env expr =>
        match expr with
        -- ConstExpr.Eval: the constant, no side effect.
        | .Const v => (.ok v, env)
        -- QuoteExpr.Eval: the raw form, no side effect.
        | .Quote form => (.ok form, env)
        -- DefExpr.Eval: trim the name, reject a blank result, store the
        -- pre-computed value in the global store, return the name symbol.
        | .Def name v =>
          let n := trimSpace name
          if n = "" then (.error (.invalidBindName n), env)
          else (.ok (.Symbol n), env.setGlobal n v)
        -- IfExpr.Eval: evaluate the test through the full pipeline, then
        -- the then- or else-form through the full pipeline.
        | .If t th el =>
          match I.envEval env t with
          | (.error e, env1) => (.error e, env1)
          | (.ok tv, env1) =>
            if isTruthy tv then I.envEval env1 th else I.envEval env1 el
        -- DoExpr.Eval: fold over the forms with the running result.
        | .Do forms => I.evalDo env forms none
        -- InvokeExpr.Eval: evaluate the target, require the Invokable
        -- capability, evaluate the arguments, push a frame (the push
        -- enforcing the depth bound, modelled from the spec), invoke, and
        -- pop the frame on the way out whatever happened.
        | .Invoke name target argExprs =>
          match I.evalExpr env target with
          | (.error e, env1) => (.error e, env1)
          | (.ok v, env1) =>
            match v with
            | .Fn code =>
              match I.evalArgs env1 argExprs with
              | (.error e, env2) => (.error e, env2)
              | (.ok args, env2) =>
                match env2.push ⟨name, args, []⟩ with
                | .error e => (.error e, env2)
                | .ok env3 =>
                  match I.invoke env3 code args with
                  | (res, env4) => (res, env4.pop)
            | notFn => (.error (.notInvokable notFn.typeName), env1)
        -- GoExpr.Eval: fork the environment, spawn the evaluation of the
        -- raw form against the fork (a goroutine the caller never joins:
        -- its result and error are discarded, and no ordering with the
        -- caller is guaranteed), and return nil immediately.
        | .Go form =>
          let _spawned := I.envEval env.fork form
          (.ok .Nil, env)
      -- The argument loop of InvokeExpr.Eval: left to right, abort on the
      -- first failure.
      evalArgs := fun env es =>
        match es with
        | [] => (.ok [], env)
        | e :: rest =>
          match I.evalExpr env e with
          | (.error er, env1) => (.error er, env1)
          | (.ok v, env1) =>
            match I.evalArgs env1 rest with
            | (.error er, env2) => (.error er, env2)
            | (.ok vs, env2) => (.ok (v :: vs), env2)
      -- The form loop of DoExpr.Eval: `acc` is the running `res` variable
      -- (`none` is Go's nil before any form ran, converted to Nil at the
      -- end).
      evalDo := fun env forms acc =>
        match forms with
        | [] =>
          match acc with
          | none => (.ok .Nil, env)
          | some v => (.ok v, env)
        | f :: fs =>
          match I.envEval env f with
          | (.error e, env1) => (.error e, env1)
          | (.ok v, env1) => I.evalDo env1 fs (some v)
      -- Invokable.Invoke for the host functions of the model.
      invoke := fun env code _args =>
        match code with
        | .constFn v => (.ok v, env)
        | .selfRec => I.evalExpr env selfRecExpr }

/-- The evaluation pipeline entry point at a fuel level. -/
def envEval (fuel : Nat) (env : Env) (form : Val) : Except Err Val × Env :=
  (interp fuel).envEval env form

/-- BasicAnalyzer.Analyze at a fuel level. -/
def analyze (fuel : Nat) (env : Env) (form : Val) : Except Err Expr × Env :=
  (interp fuel).analyze env form

/-- BasicAnalyzer.analyzeSeq at a fuel level. -/
def analyzeSeq (fuel : Nat) (env : Env) (forms : List Val) : Except Err Expr × Env :=
  (interp fuel).analyzeSeq env forms

/-- The general-invocation analysis path at a fuel level. -/
def analyzeInvoke (fuel : Nat) (env : Env) (forms : List Val) : Except Err Expr × Env :=
  (interp fuel).analyzeInvoke env forms

/-- The analyzer's argument loop at a fuel level. -/
def analyzeList (fuel : Nat) (env : Env) (forms : List Val) : Except Err (List Expr) × Env :=
  (interp fuel).analyzeList env forms

/-- parseDefExpr at a fuel level. -/
def parseDef (fuel : Nat) (env : Env) (args : List Val) : Except Err Expr × Env :=
  (interp fuel).parseDef env args

/-- Expr.Eval at a fuel level. -/
def evalExpr (fuel : Nat) (env : Env) (expr : Expr) : Except Err Val × Env :=
  (interp fuel).evalExpr env expr

/-- The invocation-argument loop at a fuel level. -/
def evalArgs (fuel : Nat) (env : Env) (es : List Expr) : Except Err (List Val) × Env :=
  (interp fuel).evalArgs env es

/-- The Do form loop at a fuel level. -/
def evalDo (fuel : Nat) (env : Env) (forms : List Val) (acc : Option Val) :
    Except Err Val × Env :=
  (interp fuel).evalDo env forms acc

/-- Invokable.Invoke at a fuel level. -/
def invoke (fuel : Nat) (env : Env) (code : FnCode) (args : List Val) :
    Except Err Val × Env :=
  (interp fuel).invoke env code args

/-- quoteFormReader (macros.go): the reader macro for the quote/unquote
family, as a function of the outcome of the single rd.One() call it makes.
A successful read wraps the form as the two-element list (symbol form); the
io.EOF sentinel becomes an end-of-input error naming the expansion
function; the skip sentinel (a no-op form such as a comment) becomes the
cannot-quote-a-no-op-form error; any other error passes through. -/
def quoteFormReader (expandFunc : String) (one : Except Err Val) : Except Err Val :=
  match one with
  | .error e =>
    if e = .ioEOF then .error (.eofIn expandFunc)
    else if e = .skipSignal then .error (.noopQuote expandFunc)
    else .error e
  | .ok expr => .ok (.List [.Symbol expandFunc, expr])

/-- Go's strings.ContainsRune on the collected token. -/
def containsRune (s : String) (c : Char) : Bool :=
  s.data.contains c

/-- readNumber (macros.go), as a function of the collected token.  The
numeric conversions it may delegate to (parseScientific, parseRadix and
the strconv parsers, which are outside the translated sources) are
parameters, so theorems about the marker check hold whatever those
conversions do. -/
def readNumber (parseSci parseRadix : String → Except Err Val)
    (parseFloat parseInt : String → Option Val) (numStr : String) : Except Err Val :=
  let decimalPoint := containsRune numStr '.'
  let isRadix := containsRune numStr 'r'
  let isSci := containsRune numStr 'e'
  if isRadix && (decimalPoint || isSci) then .error (.numberFormat numStr)
  else if isSci then parseSci numStr
  else if decimalPoint then
    match parseFloat numStr with
    | some v => .ok v
    | none => .error (.numberFormat numStr)
  else if isRadix then parseRadix numStr
  else
    match parseInt numStr with
    | some v => .ok v
    | none => .error (.numberFormat numStr)

/-- The empty root environment with the default maximum depth (10000,
from withDefaults). -/
def env₀ : Env := { globals := [], stack := [], maxDepth := 10000 }

/-- An environment whose single permitted frame is already occupied, so the
next push exceeds the bound. -/
def envOneDeep : Env := { globals := [], stack := [⟨"f", [], []⟩], maxDepth := 1 }

/-- An environment binding the symbol f to an invokable host value. -/
def envF : Env := { globals := [("f", .Fn (.constFn .Nil))], stack := [], maxDepth := 10000 }

/-- Unfolding of the pipeline one fuel step. -/
theorem envEval_succ (fuel : Nat) (env : Env) (form : Val) :
    envEval (fuel + 1) env form =
      match analyze fuel env form with
      | (.error e, env') => (.error e, env')
      | (.ok expr, env') => evalExpr fuel env' expr := rfl

/-- Unfolding of Analyze on a symbol form. -/
theorem analyze_symbol (fuel : Nat) (env : Env) (s : String) :
    analyze (fuel + 1) env (.Symbol s) =
      match env.resolve s with
      | none => (.error (.notFound s), env)
      | some v => (.ok (.Const v), env) := rfl

/-- Unfolding of Analyze on a non-empty sequence form. -/
theorem analyze_seq (fuel : Nat) (env : Env) (x : Val) (xs : List Val) :
    analyze (fuel + 1) env (.List (x :: xs)) = analyzeSeq fuel env (x :: xs) := rfl

/-- Unfolding of analyzeSeq's general-invocation branch: a non-symbol head
goes to the invocation path. -/
theorem analyzeSeq_nonSymbol (fuel : Nat) (env : Env) (first : Val) (rest : List Val)
    (h : ∀ s, first ≠ .Symbol s) :
    analyzeSeq (fuel + 1) env (first :: rest) = analyzeInvoke fuel env (first :: rest) := by
  cases first with
  | Symbol s => exact absurd rfl (h s)
  | Nil => rfl
  | Bool b => rfl
  | Int64 n => rfl
  | Char c => rfl
  | Str s => rfl
  | Keyword s => rfl
  | List l => rfl
  | Fn c => rfl

/-- Unfolding of analyzeSeq on a symbol head that is not a registered
special form. -/
theorem analyzeSeq_symbol_notSpecial (fuel : Nat) (env : Env) (s : String)
    (rest : List Val) (hgo : s ≠ "go") (hdef : s ≠ "def") (hquote : s ≠ "quote") :
    analyzeSeq (fuel + 1) env (.Symbol s :: rest) = analyzeInvoke fuel env (.Symbol s :: rest) := by
  show (if s = "go" then _ else if s = "def" then _ else if s = "quote" then _ else _) = _
  rw [if_neg hgo, if_neg hdef, if_neg hquote]
  rfl

/-- Unfolding of analyzeSeq's go dispatch. -/
theorem analyzeSeq_go (fuel : Nat) (env : Env) (rest : List Val) :
    analyzeSeq (fuel + 1) env (.Symbol "go" :: rest) =
      (match parseGoExpr rest with
       | .error e => (.error e, env)
       | .ok expr => (.ok expr, env)) := rfl

/-- Unfolding of the general-invocation path. -/
theorem analyzeInvoke_cons (fuel : Nat) (env : Env) (first : Val) (rest : List Val) :
    analyzeInvoke (fuel + 1) env (first :: rest) =
      match analyze fuel env first with
      | (.error e, env1) => (.error e, env1)
      | (.ok target, env1) =>
        match analyzeList fuel env1 (first :: rest) with
        | (.error e, env2) => (.error e, env2)
        | (.ok args, env2) => (.ok (.Invoke (exprName target) target args), env2) := rfl

/-- Unfolding of the analyzer's argument loop. -/
theorem analyzeList_cons (fuel : Nat) (env : Env) (f : Val) (fs : List Val) :
    analyzeList (fuel + 1) env (f :: fs) =
      match analyze fuel env f with
      | (.error e, env1) => (.error e, env1)
      | (.ok e1, env1) =>
        match analyzeList fuel env1 fs with
        | (.error e, env2) => (.error e, env2)
        | (.ok es, env2) => (.ok (e1 :: es), env2) := rfl

/-- The argument loop accepts an empty list at any positive fuel. -/
theorem analyzeList_nil (fuel : Nat) (env : Env) :
    analyzeList (fuel + 1) env [] = (.ok [], env) := rfl

/-- The argument loop fails without fuel. -/
theorem analyzeList_zero (env : Env) (forms : List Val) :
    analyzeList 0 env forms = (.error .fuelExhausted, env) := rfl

/-- Unfolding of evalExpr on a Const node. -/
theorem evalExpr_const (fuel : Nat) (env : Env) (v : Val) :
    evalExpr (fuel + 1) env (.Const v) = (.ok v, env) := rfl

/-- Unfolding of evalExpr on a Quote node. -/
theorem evalExpr_quote (fuel : Nat) (env : Env) (form : Val) :
    evalExpr (fuel + 1) env (.Quote form) = (.ok form, env) := rfl

/-- Unfolding of evalExpr on a Def node. -/
theorem evalExpr_def (fuel : Nat) (env : Env) (name : String) (v : Val) :
    evalExpr (fuel + 1) env (.Def name v) =
      (if trimSpace name = "" then (.error (.invalidBindName (trimSpace name)), env)
       else (.ok (.Symbol (trimSpace name)), env.setGlobal (trimSpace name) v)) := rfl

/-- Unfolding of evalExpr on an If node. -/
theorem evalExpr_if (fuel : Nat) (env : Env) (t th el : Val) :
    evalExpr (fuel + 1) env (.If t th el) =
      match envEval fuel env t with
      | (.error e, env1) => (.error e, env1)
      | (.ok tv, env1) =>
        if isTruthy tv then envEval fuel env1 th else envEval fuel env1 el := rfl

/-- Unfolding of evalExpr on a Do node. -/
theorem evalExpr_do (fuel : Nat) (env : Env) (forms : List Val) :
    evalExpr (fuel + 1) env (.Do forms) = evalDo fuel env forms none := rfl

/-- Unfolding of evalExpr on an Invoke node. -/
theorem evalExpr_invoke (fuel : Nat) (env : Env) (name : String) (target : Expr)
    (argExprs : List Expr) :
    evalExpr (fuel + 1) env (.Invoke name target argExprs) =
      match evalExpr fuel env target with
      | (.error e, env1) => (.error e, env1)
      | (.ok v, env1) =>
        match v with
        | .Fn code =>
          match evalArgs fuel env1 argExprs with
          | (.error e, env2) => (.error e, env2)
          | (.ok args, env2) =>
            match env2.push ⟨name, args, []⟩ with
            | .error e => (.error e, env2)
            | .ok env3 =>
              match invoke fuel env3 code args with
              | (res, env4) => (res, env4.pop)
        | notFn => (.error (.notInvokable notFn.typeName), env1) := rfl

/-- Unfolding of evalExpr on a Go node. -/
theorem evalExpr_go (fuel : Nat) (env : Env) (form : Val) :
    evalExpr (fuel + 1) env (.Go form) = (.ok .Nil, env) := rfl

/-- Empty invocation-argument list at any positive fuel. -/
theorem evalArgs_nil (fuel : Nat) (env : Env) :
    evalArgs (fuel + 1) env [] = (.ok [], env) := rfl

/-- Unfolding of the Do loop on a non-empty form list. -/
theorem evalDo_cons (fuel : Nat) (env : Env) (f : Val) (fs : List Val) (acc : Option Val) :
    evalDo (fuel + 1) env (f :: fs) acc =
      match envEval fuel env f with
      | (.error e, env1) => (.error e, env1)
      | (.ok v, env1) => evalDo fuel env1 fs (some v) := rfl

/-- The Do loop on an exhausted form list: nil accumulator becomes Nil. -/
theorem evalDo_nil (fuel : Nat) (env : Env) (acc : Option Val) :
    evalDo (fuel + 1) env [] acc =
      match acc with
      | none => (.ok .Nil, env)
      | some v => (.ok v, env) := rfl

/-- Unfolding of a selfRec host invocation. -/
theorem invoke_selfRec (fuel : Nat) (env : Env) (args : List Val) :
    invoke (fuel + 1) env .selfRec args = evalExpr fuel env selfRecExpr := rfl

/-- One recursion level of the self-recursive invocation: evaluate the
constant target, no arguments, push a frame, recurse two fuel levels
down, pop. -/
theorem selfRec_step (g : Nat) (env : Env) :
    evalExpr (g + 2) env selfRecExpr =
      match env.push ⟨"recur", [], []⟩ with
      | .error e => (.error e, env)
      | .ok env3 =>
        match evalExpr g env3 selfRecExpr with
        | (res, env4) => (res, env4.pop) := rfl

/-- With fuel at least 2*(remaining depth budget)+2, the self-recursive
invocation with no base case always lands on the depth bound: it
terminates with the stack-depth-exceeded error, not by running out of
fuel. -/
theorem selfRec_overflow (k : Nat) :
    ∀ (fuel : Nat) (env : Env), env.maxDepth - env.stack.length = k →
      2 * k + 2 ≤ fuel → (evalExpr fuel env selfRecExpr).1 = .error .stackOverflow := by
  induction k with
  | zero =>
    intro fuel env hk hf
    obtain ⟨g, rfl⟩ : ∃ g, fuel = g + 2 := ⟨fuel - 2, by omega⟩
    rw [selfRec_step]
    have hpush : env.push ⟨"recur", [], []⟩ = .error .stackOverflow := by
      unfold Env.push
      rw [if_pos (by omega)]
    rw [hpush]
  | succ k ih =>
    intro fuel env hk hf
    obtain ⟨g, rfl⟩ : ∃ g, fuel = g + 2 := ⟨fuel - 2, by omega⟩
    rw [selfRec_step]
    have hpush : env.push ⟨"recur", [], []⟩ =
        .ok { env with stack := ⟨"recur", [], []⟩ :: env.stack } := by
      unfold Env.push
      rw [if_neg (by omega)]
    rw [hpush]
    show (match evalExpr g { env with stack := ⟨"recur", [], []⟩ :: env.stack } selfRecExpr with
          | (res, env4) => (res, env4.pop)).1 = .error .stackOverflow
    rcases hE : evalExpr g { env with stack := ⟨"recur", [], []⟩ :: env.stack } selfRecExpr
      with ⟨res, env4⟩
    have hrec := ih g { env with stack := ⟨"recur", [], []⟩ :: env.stack }
      (by simp only [List.length_cons]; omega) (by omega)
    rw [hE] at hrec
    exact hrec

/-- A successful pass of the analyzer's argument loop produces exactly one
argument expression per element of the sequence. -/
theorem analyzeList_length (fuel : Nat) :
    ∀ (env : Env) (forms : List Val) (args : List Expr) (env' : Env),
      analyzeList fuel env forms = (.ok args, env') → args.length = forms.length := by
  induction fuel with
  | zero =>
    intro env forms args env' h
    rw [analyzeList_zero] at h
    simp at h
  | succ fuel ih =>
    intro env forms args env' h
    cases forms with
    | nil =>
      rw [analyzeList_nil] at h
      simp at h
      simp [h.1]
    | cons f fs =>
      rw [analyzeList_cons] at h
      rcases hA : analyze fuel env f with ⟨r1, env1⟩
      rw [hA] at h
      cases r1 with
      | error e =>
        replace h : ((.error e : Except Err (List Expr)), env1) = (.ok args, env') := h
        simp at h
      | ok e1 =>
        replace h :
            (match analyzeList fuel env1 fs with
             | (.error e, env2) => (.error e, env2)
             | (.ok es, env2) => ((.ok (e1 :: es) : Except Err (List Expr)), env2)) =
              (.ok args, env') := h
        rcases hL : analyzeList fuel env1 fs with ⟨r2, env2⟩
        rw [hL] at h
        cases r2 with
        | error e =>
          replace h : ((.error e : Except Err (List Expr)), env2) = (.ok args, env') := h
          simp at h
        | ok es =>
          replace h : ((.ok (e1 :: es) : Except Err (List Expr)), env2) = (.ok args, env') := h
          have hargs : e1 :: es = args := by
            have := congrArg Prod.fst h
            simpa using this
          rw [← hargs]
          simp [ih env1 fs es env2 hL]

/-- C1: an invocation whose stack-frame push would exceed the configured
maximum depth fails with the stack-depth-exceeded error.  The result is
the same whatever code the target invokable carries -- `code` is
universally quantified and absent from the conclusion -- so the target is
never invoked, and the failure is an ordinary reported error value, not an
unrecoverable host fault.  The second conjunct settles the self-recursive
invocation with no base case: once the fuel covers twice the remaining
depth budget, evaluation terminates with exactly this error. -/
theorem invoke_depth_exceeded (fuel : Nat) (env env1 env2 : Env) (name : String)
    (target : Expr) (argExprs : List Expr) (code : FnCode) (args : List Val)
    (h1 : evalExpr fuel env target = (.ok (.Fn code), env1))
    (h2 : evalArgs fuel env1 argExprs = (.ok args, env2))
    (h3 : env2.maxDepth ≤ env2.stack.length) :
    evalExpr (fuel + 1) env (.Invoke name target argExprs) = (.error .stackOverflow, env2) ∧
    ∀ (fuelR : Nat) (envR : Env),
      2 * (envR.maxDepth - envR.stack.length) + 2 ≤ fuelR →
      (evalExpr fuelR envR selfRecExpr).1 = .error .stackOverflow := by
  constructor
  · have s1 : evalExpr (fuel + 1) env (.Invoke name target argExprs) =
        (match evalExpr fuel env target with
         | (.error e, envA) => (.error e, envA)
         | (.ok v, envA) =>
           match v with
           | .Fn c =>
             match evalArgs fuel envA argExprs with
             | (.error e, envB) => (.error e, envB)
             | (.ok vs, envB) =>
               match envB.push ⟨name, vs, []⟩ with
               | .error e => (.error e, envB)
               | .ok envC =>
                 match invoke fuel envC c vs with
                 | (res, envD) => (res, envD.pop)
           | notFn => (.error (.notInvokable notFn.typeName), envA)) := rfl
    rw [s1, h1]
    show (match evalArgs fuel env1 argExprs with
          | (.error e, envB) => (.error e, envB)
          | (.ok vs, envB) =>
            match envB.push ⟨name, vs, []⟩ with
            | .error e => (.error e, envB)
            | .ok envC =>
              match invoke fuel envC code vs with
              | (res, envD) => (res, envD.pop)) = (.error .stackOverflow, env2)
    rw [h2]
    show (match env2.push ⟨name, args, []⟩ with
          | .error e => (.error e, env2)
          | .ok envC =>
            match invoke fuel envC code args with
            | (res, envD) => (res, envD.pop)) = (.error .stackOverflow, env2)
    have hpush : env2.push ⟨name, args, []⟩ = .error .stackOverflow := by
      unfold Env.push
      rw [if_pos (by omega)]
    rw [hpush]
  · intro fuelR envR hf
    exact selfRec_overflow (envR.maxDepth - envR.stack.length) fuelR envR rfl hf

/-- Witness for C1: with maxDepth 1 and one frame already on the stack,
invoking a constant host function reports stack-depth-exceeded. -/
theorem invoke_depth_exceeded_witness :
    evalExpr 4 envOneDeep (.Invoke "g" (.Const (.Fn (.constFn .Nil))) []) =
      (.error .stackOverflow, envOneDeep) :=
  (invoke_depth_exceeded 3 envOneDeep envOneDeep envOneDeep "g"
    (.Const (.Fn (.constFn .Nil))) [] (.constFn .Nil) [] rfl rfl (by decide)).1

/-- C2: the general-invocation analysis of a non-empty sequence whose head
is not a registered special-form symbol builds an Invoke node whose
argument list has exactly one entry per element of the whole sequence
(the target included): the head form is analyzed once as the call target
and a second time as the first argument. -/
theorem analyzeSeq_double_analysis (fuel : Nat) (env env2 : Env) (first : Val)
    (rest : List Val) (expr : Expr)
    (hns : ∀ t, first = .Symbol t → t ≠ "go" ∧ t ≠ "def" ∧ t ≠ "quote")
    (h : analyzeSeq (fuel + 3) env (first :: rest) = (.ok expr, env2)) :
    ∃ target env1 args a0 tl,
      analyze (fuel + 1) env first = (.ok target, env1) ∧
      analyzeList (fuel + 1) env1 (first :: rest) = (.ok args, env2) ∧
      expr = .Invoke (exprName target) target args ∧
      args.length = rest.length + 1 ∧
      args = a0 :: tl ∧
      ∃ envMid, analyze fuel env1 first = (.ok a0, envMid) := by
  have hd : analyzeSeq (fuel + 3) env (first :: rest) =
      analyzeInvoke (fuel + 2) env (first :: rest) := by
    cases first with
    | Symbol t =>
      obtain ⟨hgo, hdef, hquo⟩ := hns t rfl
      exact analyzeSeq_symbol_notSpecial (fuel + 2) env t rest hgo hdef hquo
    | Nil => rfl
    | Bool b => rfl
    | Int64 n => rfl
    | Char c => rfl
    | Str s => rfl
    | Keyword s => rfl
    | List l => rfl
    | Fn c => rfl
  rw [hd] at h
  replace h :
      (match analyze (fuel + 1) env first with
       | (.error e, envA) => (.error e, envA)
       | (.ok target, envA) =>
         match analyzeList (fuel + 1) envA (first :: rest) with
         | (.error e, envB) => (.error e, envB)
         | (.ok args, envB) =>
           ((.ok (.Invoke (exprName target) target args) : Except Err Expr), envB)) =
        (.ok expr, env2) := h
  rcases hA : analyze (fuel + 1) env first with ⟨r1, env1⟩
  rw [hA] at h
  cases r1 with
  | error e =>
    replace h : ((.error e : Except Err Expr), env1) = (.ok expr, env2) := h
    simp at h
  | ok target =>
    replace h :
        (match analyzeList (fuel + 1) env1 (first :: rest) with
         | (.error e, envB) => (.error e, envB)
         | (.ok args, envB) =>
           ((.ok (.Invoke (exprName target) target args) : Except Err Expr), envB)) =
          (.ok expr, env2) := h
    rcases hList : analyzeList (fuel + 1) env1 (first :: rest) with ⟨r2, env2A⟩
    rw [hList] at h
    cases r2 with
    | error e =>
      replace h : ((.error e : Except Err Expr), env2A) = (.ok expr, env2) := h
      simp at h
    | ok args =>
      replace h : ((.ok (.Invoke (exprName target) target args) : Except Err Expr), env2A) =
          (.ok expr, env2) := h
      have hexpr : Expr.Invoke (exprName target) target args = expr := by
        have hfst := congrArg Prod.fst h
        simpa using hfst
      have henv : env2A = env2 := congrArg Prod.snd h
      have hlen : args.length = rest.length + 1 := by
        have := analyzeList_length (fuel + 1) env1 (first :: rest) args env2A hList
        simpa using this
      have hhead :
          (match analyze fuel env1 first with
           | (.error e, envM) => (.error e, envM)
           | (.ok a0, envM) =>
             match analyzeList fuel envM rest with
             | (.error e, envB) => (.error e, envB)
             | (.ok es, envB) => ((.ok (a0 :: es) : Except Err (List Expr)), envB)) =
            ((.ok args : Except Err (List Expr)), env2A) := hList
      rcases hA0 : analyze fuel env1 first with ⟨r0, envMid⟩
      rw [hA0] at hhead
      cases r0 with
      | error e =>
        replace hhead : ((.error e : Except Err (List Expr)), envMid) = (.ok args, env2A) := hhead
        simp at hhead
      | ok a0 =>
        replace hhead :
            (match analyzeList fuel envMid rest with
             | (.error e, envB) => (.error e, envB)
             | (.ok es, envB) => ((.ok (a0 :: es) : Except Err (List Expr)), envB)) =
              ((.ok args : Except Err (List Expr)), env2A) := hhead
        rcases hLt : analyzeList fuel envMid rest with ⟨rt, envT⟩
        rw [hLt] at hhead
        cases rt with
        | error e =>
          replace hhead : ((.error e : Except Err (List Expr)), envT) = (.ok args, env2A) := hhead
          simp at hhead
        | ok tl =>
          replace hhead : ((.ok (a0 :: tl) : Except Err (List Expr)), envT) =
              (.ok args, env2A) := hhead
          have hargs : a0 :: tl = args := by
            have hfst := congrArg Prod.fst hhead
            simpa using hfst
          refine ⟨target, env1, args, a0, tl, rfl, ?_, hexpr.symm, hlen, hargs.symm,
            envMid, hA0⟩
          rw [← henv]
          exact hList

/-- Witness for C2: analyzing (f 1) with f bound to a host function yields
an Invoke node with two arguments, the analyzed f twice over. -/
theorem analyzeSeq_double_analysis_witness :
    ∃ target env1 args a0 tl,
      analyze 3 envF (.Symbol "f") = (.ok target, env1) ∧
      analyzeList 3 env1 [.Symbol "f", .Int64 1] = (.ok args, envF) ∧
      Expr.Invoke "InvokeExpr" (.Const (.Fn (.constFn .Nil)))
          [.Const (.Fn (.constFn .Nil)), .Const (.Int64 1)] =
        .Invoke (exprName target) target args ∧
      args.length = [Val.Int64 1].length + 1 ∧
      args = a0 :: tl ∧
      ∃ envMid, analyze 2 env1 (.Symbol "f") = (.ok a0, envMid) :=
  analyzeSeq_double_analysis 2 envF envF (.Symbol "f") [.Int64 1]
    (.Invoke "InvokeExpr" (.Const (.Fn (.constFn .Nil)))
      [.Const (.Fn (.constFn .Nil)), .Const (.Int64 1)])
    (by
      intro t ht
      injection ht with hts
      subst hts
      exact ⟨by decide, by decide, by decide⟩)
    rfl

/-- C3: DefExpr.Eval rejects a name that is blank after trimming with the
invalid-binding-name error and leaves the global store untouched; a
non-blank name stores the pre-computed value into the global store
whatever the current call stack holds (env, and so its call depth, is
arbitrary) and returns the bound name as a Symbol. -/
theorem defExpr_eval_spec (fuel : Nat) (env : Env) (blank nonblank : String) (v w : Val)
    (h1 : trimSpace blank = "") (h2 : trimSpace nonblank ≠ "") :
    evalExpr (fuel + 1) env (.Def blank v) = (.error (.invalidBindName ""), env) ∧
    (evalExpr (fuel + 1) env (.Def blank v)).2.globals = env.globals ∧
    evalExpr (fuel + 1) env (.Def nonblank w) =
      (.ok (.Symbol (trimSpace nonblank)), env.setGlobal (trimSpace nonblank) w) ∧
    lookupStore (env.setGlobal (trimSpace nonblank) w).globals (trimSpace nonblank) = some w := by
  have eB : evalExpr (fuel + 1) env (.Def blank v) = (.error (.invalidBindName ""), env) := by
    rw [evalExpr_def, h1]
    simp
  have eN : evalExpr (fuel + 1) env (.Def nonblank w) =
      (.ok (.Symbol (trimSpace nonblank)), env.setGlobal (trimSpace nonblank) w) := by
    rw [evalExpr_def, if_neg h2]
  refine ⟨eB, by rw [eB], eN, ?_⟩
  simp [Env.setGlobal, lookupStore]

/-- Witness for C3: a space-only name fails and binds nothing; a name with
a leading space binds x. -/
theorem defExpr_eval_spec_witness :
    evalExpr 1 env₀ (.Def " " Val.Nil) = (.error (.invalidBindName ""), env₀) ∧
    (evalExpr 1 env₀ (.Def " " Val.Nil)).2.globals = env₀.globals ∧
    evalExpr 1 env₀ (.Def " x" (.Int64 7)) =
      (.ok (.Symbol "x"), env₀.setGlobal "x" (.Int64 7)) ∧
    lookupStore (env₀.setGlobal "x" (.Int64 7)).globals "x" = some (.Int64 7) :=
  defExpr_eval_spec 0 env₀ " " " x" Val.Nil (.Int64 7) rfl (by decide)

/-- C4: evaluating a Go node returns Nil immediately without error; the
spawned evaluation is a detached goroutine whose result and error are
discarded, so the caller's result does not depend on the spawned form at
all -- even a form whose forked evaluation fails, like the unresolvable
symbol in the third conjunct, leaves the caller with Nil. -/
theorem goExpr_fire_and_forget (fuel : Nat) (env : Env) (form : Val) :
    evalExpr (fuel + 1) env (.Go form) = (.ok Val.Nil, env) ∧
    (∀ other, evalExpr (fuel + 1) env (.Go form) = evalExpr (fuel + 1) env (.Go other)) ∧
    envEval 9 env₀ (.List [.Symbol "go", .Symbol "unbound-symbol"]) = (.ok Val.Nil, env₀) :=
  ⟨rfl, fun _ => rfl, rfl⟩

/-- C5: an If node evaluates its test through the full pipeline and picks
the branch by truthiness; only Nil and boolean false are falsy, so
(if nil 1 2) evaluates to 2 while (if 0 1 2) evaluates to 1. -/
theorem ifExpr_truthiness (fuel : Nat) (env env1 : Env) (t th el v : Val)
    (h : envEval fuel env t = (.ok v, env1)) :
    evalExpr (fuel + 1) env (.If t th el) =
      (if isTruthy v then envEval fuel env1 th else envEval fuel env1 el) ∧
    (∀ w, isTruthy w = false ↔ (w = .Nil ∨ w = .Bool false)) ∧
    evalExpr 9 env₀ (.If .Nil (.Int64 1) (.Int64 2)) = (.ok (.Int64 2), env₀) ∧
    evalExpr 9 env₀ (.If (.Int64 0) (.Int64 1) (.Int64 2)) = (.ok (.Int64 1), env₀) := by
  refine ⟨?_, ?_, rfl, rfl⟩
  · have k : evalExpr (fuel + 1) env (.If t th el) =
        (match envEval fuel env t with
         | (.error e, envA) => (.error e, envA)
         | (.ok tv, envA) =>
           if isTruthy tv then envEval fuel envA th else envEval fuel envA el) := rfl
    rw [k, h]
  · intro w
    cases w with
    | Bool b => cases b <;> simp [isTruthy]
    | Nil => simp [isTruthy]
    | Int64 n => simp [isTruthy]
    | Char c => simp [isTruthy]
    | Str s => simp [isTruthy]
    | Keyword s => simp [isTruthy]
    | Symbol s => simp [isTruthy]
    | List l => simp [isTruthy]
    | Fn c => simp [isTruthy]

/-- Witness for C5 with the Nil test. -/
theorem ifExpr_truthiness_witness :
    evalExpr 3 env₀ (.If .Nil (.Int64 1) (.Int64 2)) =
      (if isTruthy .Nil then envEval 2 env₀ (.Int64 1) else envEval 2 env₀ (.Int64 2)) ∧
    (∀ w, isTruthy w = false ↔ (w = .Nil ∨ w = .Bool false)) ∧
    evalExpr 9 env₀ (.If .Nil (.Int64 1) (.Int64 2)) = (.ok (.Int64 2), env₀) ∧
    evalExpr 9 env₀ (.If (.Int64 0) (.Int64 1) (.Int64 2)) = (.ok (.Int64 1), env₀) :=
  ifExpr_truthiness 2 env₀ env₀ .Nil (.Int64 1) (.Int64 2) .Nil rfl

/-- C6: a Do node evaluates its held forms in order through the full
pipeline: the empty form list gives Nil; a failing form aborts
immediately with that error whatever forms follow (the trailing forms fs
are arbitrary and absent from the error result); the last form's result
is what the node returns. -/
theorem doExpr_sequencing (fuel : Nat) (env env1 envE : Env) (fErr fOk : Val)
    (fs : List Val) (v : Val) (e : Err)
    (hB : envEval (fuel + 1) env fErr = (.error e, envE))
    (hC : envEval (fuel + 1) env fOk = (.ok v, env1)) :
    evalExpr (fuel + 3) env (.Do []) = (.ok Val.Nil, env) ∧
    evalExpr (fuel + 3) env (.Do (fErr :: fs)) = (.error e, envE) ∧
    evalExpr (fuel + 3) env (.Do [fOk]) = (.ok v, env1) ∧
    evalExpr (fuel + 3) env (.Do (fOk :: fs)) = evalDo (fuel + 1) env1 fs (some v) ∧
    evalExpr 9 env₀ (.Do [.Int64 1, .Str "a", .Int64 3]) = (.ok (.Int64 3), env₀) := by
  refine ⟨rfl, ?_, ?_, ?_, rfl⟩
  · have k : evalExpr (fuel + 3) env (.Do (fErr :: fs)) =
        (match envEval (fuel + 1) env fErr with
         | (.error er, envA) => (.error er, envA)
         | (.ok w, envA) => evalDo (fuel + 1) envA fs (some w)) := rfl
    rw [k, hB]
  · have k : evalExpr (fuel + 3) env (.Do [fOk]) =
        (match envEval (fuel + 1) env fOk with
         | (.error er, envA) => (.error er, envA)
         | (.ok w, envA) => evalDo (fuel + 1) envA [] (some w)) := rfl
    rw [k, hC]
    rfl
  · have k : evalExpr (fuel + 3) env (.Do (fOk :: fs)) =
        (match envEval (fuel + 1) env fOk with
         | (.error er, envA) => (.error er, envA)
         | (.ok w, envA) => evalDo (fuel + 1) envA fs (some w)) := rfl
    rw [k, hC]

/-- Witness for C6: the failing form is an unresolvable symbol, the
succeeding one an integer literal. -/
theorem doExpr_sequencing_witness :
    evalExpr 5 env₀ (.Do []) = (.ok Val.Nil, env₀) ∧
    evalExpr 5 env₀ (.Do [.Symbol "nope", .Int64 9]) = (.error (.notFound "nope"), env₀) ∧
    evalExpr 5 env₀ (.Do [.Int64 7]) = (.ok (.Int64 7), env₀) ∧
    evalExpr 5 env₀ (.Do [.Int64 7, .Int64 9]) = evalDo 3 env₀ [.Int64 9] (some (.Int64 7)) ∧
    evalExpr 9 env₀ (.Do [.Int64 1, .Str "a", .Int64 3]) = (.ok (.Int64 3), env₀) :=
  doExpr_sequencing 2 env₀ env₀ env₀ (.Symbol "nope") (.Int64 7) [.Int64 9] (.Int64 7)
    (.notFound "nope") rfl rfl

/-- C7: the quote/unquote reader macro wraps the one form it reads as the
two-element list (symbol form) naming the expansion function; a skip
signal (a no-op form such as a comment) from that read fails with the
cannot-quote-a-no-op-form error, and end of input fails with an EOF error
naming the expansion function. -/
theorem quoteFormReader_spec (f : String) (v : Val) :
    quoteFormReader f (.ok v) = .ok (.List [.Symbol f, v]) ∧
    quoteFormReader f (.error .skipSignal) = .error (.noopQuote f) ∧
    quoteFormReader f (.error .ioEOF) = .error (.eofIn f) :=
  ⟨rfl, rfl, rfl⟩

/-- C8 counterexample: a go form whose argument count is two is not
rejected -- parseGoExpr accepts it and silently drops everything after
the first argument, both called directly and through the analyzer's
special-form dispatch. -/
theorem parseGoExpr_two_args_accepted :
    parseGoExpr [Val.Int64 1, Val.Int64 2] = .ok (.Go (.Int64 1)) ∧
    analyzeSeq 3 env₀ [.Symbol "go", .Int64 1, .Int64 2] = (.ok (.Go (.Int64 1)), env₀) :=
  ⟨rfl, rfl⟩

/-- C8 amended: the go special form takes its first argument raw and wraps
it into a Go node; an empty argument sequence (missing argument) is an
error; surplus arguments after the first are ignored, not rejected. -/
theorem parseGoExpr_amended :
    parseGoExpr [] = .error .goMissingArg ∧
    ∀ (v : Val) (rest : List Val), parseGoExpr (v :: rest) = .ok (.Go v) :=
  ⟨rfl, fun _ _ => rfl⟩

/-- C9: a number token combining the radix marker r with a decimal point
or the scientific marker e fails immediately with the number-format
error, whatever the numeric conversion functions would have produced --
they are quantified over, so no numeric parse is ever attempted. -/
theorem readNumber_conflicting_markers (parseSci parseRadix : String → Except Err Val)
    (parseFloat parseInt : String → Option Val) (numStr : String)
    (hr : containsRune numStr 'r' = true)
    (hc : containsRune numStr '.' = true ∨ containsRune numStr 'e' = true) :
    readNumber parseSci parseRadix parseFloat parseInt numStr =
      .error (.numberFormat numStr) := by
  rcases hc with h | h <;> simp [readNumber, hr, h]

/-- Witness for C9 on the token 2r1.1, with dummy conversion functions
that would succeed if ever consulted. -/
theorem readNumber_conflicting_markers_witness :
    readNumber (fun s => .ok (.Str s)) (fun s => .ok (.Str s))
      (fun _ => some Val.Nil) (fun _ => some Val.Nil) "2r1.1" =
      .error (.numberFormat "2r1.1") :=
  readNumber_conflicting_markers (fun s => .ok (.Str s)) (fun s => .ok (.Str s))
    (fun _ => some Val.Nil) (fun _ => some Val.Nil) "2r1.1" (by decide) (Or.inl (by decide))

/-- C10: a Def whose name carries leading or trailing whitespace around a
non-blank core binds and returns the trimmed name, not the original: the
global store gains an entry under the trimmed key and the returned Symbol
carries the trimmed text; in particular a Def named " x " creates the
binding x. -/
theorem defExpr_trims_name (fuel : Nat) (env : Env) (name : String) (v : Val)
    (h1 : trimSpace name ≠ "") (h2 : name ≠ trimSpace name) :
    evalExpr (fuel + 1) env (.Def name v) =
      (.ok (.Symbol (trimSpace name)), env.setGlobal (trimSpace name) v) ∧
    lookupStore (evalExpr (fuel + 1) env (.Def name v)).2.globals (trimSpace name) = some v ∧
    Val.Symbol (trimSpace name) ≠ Val.Symbol name ∧
    evalExpr 1 env₀ (.Def " x " (.Int64 5)) = (.ok (.Symbol "x"), env₀.setGlobal "x" (.Int64 5)) ∧
    lookupStore (env₀.setGlobal "x" (.Int64 5)).globals "x" = some (.Int64 5) := by
  have eN : evalExpr (fuel + 1) env (.Def name v) =
      (.ok (.Symbol (trimSpace name)), env.setGlobal (trimSpace name) v) := by
    rw [evalExpr_def, if_neg h1]
  refine ⟨eN, ?_, ?_, rfl, rfl⟩
  · rw [eN]
    simp [Env.setGlobal, lookupStore]
  · intro hcontra
    injection hcontra with hs
    exact h2 hs.symm

/-- Witness for C10 at the name " x ". -/
theorem defExpr_trims_name_witness :
    evalExpr 1 env₀ (.Def " x " (.Int64 5)) =
      (.ok (.Symbol "x"), env₀.setGlobal "x" (.Int64 5)) ∧
    lookupStore (evalExpr 1 env₀ (.Def " x " (.Int64 5))).2.globals "x" = some (.Int64 5) ∧
    Val.Symbol "x" ≠ Val.Symbol " x " ∧
    evalExpr 1 env₀ (.Def " x " (.Int64 5)) = (.ok (.Symbol "x"), env₀.setGlobal "x" (.Int64 5)) ∧
    lookupStore (env₀.setGlobal "x" (.Int64 5)).globals "x" = some (.Int64 5) :=
  defExpr_trims_name 0 env₀ " x " (.Int64 5) (by decide) (by decide)

end ParensProof
